import Mathlib

/-!
Verification of the project-lifecycle state machine and the labor-cost
aggregator of the alghazal back-office API.

The definitions below are a shallow embedding of the TypeScript source:

* `validStatusTransitions`, `updateProjectStatus`, `updateProject`,
  `updateProjectProgress`, `deleteProject`, `assignTeamAndDriver`
  follow `src/controllers/projectController.ts`;
* `calculateLaborDetails` and its helpers follow
  `src/controllers/expenseController.ts`.

Mongo documents are modelled as association lists keyed by numeric ids
(`ObjectId` equality is equality of ids); the document store is explicit
state threaded through each handler, which returns the post-state of the
store together with the HTTP outcome (`Except ApiErr _`).  Display-only
fields (names, profile images, e-mail bodies) and the notification /
comment side effects are outside the modelled state.
-/

/-- The 17 values of the project `status` enum (`projectModel.ts`). -/
inductive ProjectStatus
  | draft
  | estimation_prepared
  | quotation_sent
  | quotation_approved
  | quotation_rejected
  | lpo_received
  | team_assigned
  | work_started
  | in_progress
  | work_completed
  | quality_check
  | client_handover
  | final_invoice_sent
  | payment_received
  | on_hold
  | cancelled
  | project_closed
  deriving DecidableEq, Repr

open ProjectStatus

/-- The transition table `validStatusTransitions` of
`src/src/controllers/projectController.ts` (lines 21-43).  The source is a
string-keyed record; a status with no key (`quotation_rejected`) behaves as
an empty entry because `validStatusTransitions[s]?.includes(t)` is falsy
when the lookup yields `undefined`. -/
def validStatusTransitions : ProjectStatus → List ProjectStatus
  | draft => [estimation_prepared]
  | estimation_prepared => [quotation_sent, on_hold, cancelled]
  | quotation_sent => [quotation_approved, quotation_rejected, on_hold, cancelled]
  | quotation_approved => [lpo_received, on_hold, cancelled]
  | lpo_received => [work_started, on_hold, cancelled]
  | work_started => [in_progress, on_hold, cancelled]
  | in_progress => [work_completed, on_hold, cancelled]
  | work_completed => [quality_check, on_hold]
  | quality_check => [client_handover, work_completed]
  | client_handover => [final_invoice_sent, on_hold]
  | final_invoice_sent => [payment_received, on_hold]
  | payment_received => [project_closed]
  | on_hold => [in_progress, work_started, cancelled]
  | cancelled => []
  | project_closed => []
  | team_assigned => [work_started, on_hold]
  | quotation_rejected => []

/-- Error outcomes of the handlers (`ApiError` in the source carries an HTTP
status code and a message; the message text is not modelled, but
`invalidTransition` keeps the from/to statuses that the source interpolates
into its message). -/
inductive ApiErr
  | badRequest
  | notFound
  | invalidTransition (fromStatus toStatus : ProjectStatus)
  | preconditionFailed
  deriving DecidableEq, Repr

/-- The HTTP status code the source attaches to each error
(`new ApiError(code, msg)`); the delete guard also uses 400. -/
def ApiErr.httpStatus : ApiErr → Nat
  | .badRequest => 400
  | .notFound => 404
  | .invalidTransition _ _ => 400
  | .preconditionFailed => 400

abbrev ProjectId := Nat
abbrev UserId := Nat

/-- The fields of a `Project` document that the modelled handlers read or
write (`projectModel.ts`); `progress` is a number with schema bounds 0-100. -/
structure ProjectState where
  status : ProjectStatus
  progress : Int
  assignedWorkers : List UserId
  assignedDriver : Option UserId
  updatedBy : Option UserId
  deriving DecidableEq, Repr

/-- The project collection: id-keyed documents. -/
abbrev Db := List (ProjectId × ProjectState)

/-- `Project.findById`. -/
def findById : Db → ProjectId → Option ProjectState
  | [], _ => none
  | (k, p) :: tl, id => if k = id then some p else findById tl id

/-- `Project.findByIdAndUpdate` / `project.save()`: replace the document
stored under `id`. -/
def saveById : Db → ProjectId → ProjectState → Db
  | [], _, _ => []
  | (k, p) :: tl, id, q =>
      if k = id then (k, q) :: saveById tl id q else (k, p) :: saveById tl id q

/-- `Project.findByIdAndDelete`. -/
def removeById : Db → ProjectId → Db
  | [], _ => []
  | (k, p) :: tl, id =>
      if k = id then removeById tl id else (k, p) :: removeById tl id

/-- `updateProjectStatus` (projectController.ts lines 297-338): require a
status in the body, find the project, reject the move with a 400
invalid-transition error unless the target is in the table entry for the
current status, otherwise store the target status and `updatedBy`. -/
def updateProjectStatus (db : Db) (id : ProjectId) (status? : Option ProjectStatus)
    (userId : UserId) : Db × Except ApiErr ProjectState :=
  match status? with
  | none => (db, .error .badRequest)
  | some target =>
    match findById db id with
    | none => (db, .error .notFound)
    | some project =>
      if target ∈ validStatusTransitions project.status then
        let updated := { project with status := target, updatedBy := some userId }
        (saveById db id updated, .ok updated)
      else
        (db, .error (.invalidTransition project.status target))

/-- The request body of the generic `updateProject` handler, restricted to
the two validated fields. -/
structure UpdateData where
  progress? : Option Int
  status? : Option ProjectStatus

/-- The progress range check of `updateProject`:
`updateData.progress < 0 || updateData.progress > 100` when present. -/
def progressOutOfRange : Option Int → Bool
  | none => false
  | some p => p < 0 || p > 100

/-- Applying the update document of `updateProject` to a project:
`findByIdAndUpdate(id, updateData)` with `updatedBy` always set. -/
def applyUpdateData (p : ProjectState) (d : UpdateData) (userId : UserId) : ProjectState :=
  { p with
      progress := d.progress?.getD p.progress
      status := d.status?.getD p.status
      updatedBy := some userId }

/-- `updateProject` (projectController.ts lines 249-295): find the project,
validate progress 0-100, and when a status is supplied validate it against
the transition table before applying the update document. -/
def updateProject (db : Db) (id : ProjectId) (d : UpdateData) (userId : UserId) :
    Db × Except ApiErr ProjectState :=
  match findById db id with
  | none => (db, .error .notFound)
  | some project =>
    if progressOutOfRange d.progress? then
      (db, .error .badRequest)
    else
      match d.status? with
      | some target =>
        if target ∈ validStatusTransitions project.status then
          let updated := applyUpdateData project d userId
          (saveById db id updated, .ok updated)
        else
          (db, .error (.invalidTransition project.status target))
      | none =>
        let updated := applyUpdateData project d userId
        (saveById db id updated, .ok updated)

/-- `updateProjectProgress` (projectController.ts lines 431-473): validate
the submitted progress, find the project, auto-advance the status using the
PREVIOUSLY STORED progress (`project.progress`, read before the new value is
applied), then store the new progress and, when the submitted value is 100
and the (auto-advanced) status is not already `work_completed`, force the
status to `work_completed` without consulting the transition table. -/
def updateProjectProgress (db : Db) (id : ProjectId) (progress? : Option Int)
    (userId : UserId) : Db × Except ApiErr ProjectState :=
  match progress? with
  | none => (db, .error .badRequest)
  | some progress =>
    if progress < 0 ∨ progress > 100 then
      (db, .error .badRequest)
    else
      match findById db id with
      | none => (db, .error .notFound)
      | some project =>
        let s1 := if project.progress ≥ 0 ∧ project.status = team_assigned
          then work_started else project.status
        let s2 := if project.progress > 0 ∧ s1 = work_started
          then in_progress else s1
        let finalStatus := if progress = 100 ∧ s2 ≠ work_completed
          then work_completed else s2
        let updated := { project with
          status := finalStatus, progress := progress, updatedBy := some userId }
        (saveById db id updated, .ok updated)

/-- Projection used to observe the stored status of a handler outcome. -/
def statusOfResult (r : Db × Except ApiErr ProjectState) : Option ProjectStatus :=
  match r.2 with
  | .ok p => some p.status
  | .error _ => none

/-- `deleteProject` (projectController.ts lines 610-630): find the project,
refuse with a 400 error unless the status is still `draft`, otherwise delete
the document. -/
def deleteProject (db : Db) (id : ProjectId) : Db × Except ApiErr Unit :=
  match findById db id with
  | none => (db, .error .notFound)
  | some project =>
    if project.status ≠ draft then
      (db, .error .preconditionFailed)
    else
      (removeById db id, .ok ())

/-- The user roles the modelled handlers test for (`userModel.ts`). -/
inductive Role
  | engineer
  | worker
  | driver
  | admin
  | superAdmin
  deriving DecidableEq, Repr

/-- The users collection: id and role for each user. -/
abbrev UserDb := List (UserId × Role)

/-- `assignTeamAndDriver` (projectController.ts lines 802-858): require a
non-empty workers array and a driver id, find the project, require status
`lpo_received`, require every listed worker to resolve to a user with role
`worker` (the `$in` find returns each matching user once, so its length
equals the request length exactly when all ids are valid) and the driver id
to resolve to a user with role `driver`; then store the workers, the driver
and status `team_assigned` directly, with no transition-table check. -/
def assignTeamAndDriver (udb : UserDb) (db : Db) (projectId : ProjectId)
    (workers : List UserId) (driverId? : Option UserId) (userId : UserId) :
    Db × Except ApiErr ProjectState :=
  if workers.isEmpty || driverId?.isNone then
    (db, .error .badRequest)
  else
    match findById db projectId, driverId? with
    | none, _ => (db, .error .notFound)
    | _, none => (db, .error .badRequest)
    | some project, some driverId =>
      if project.status ≠ lpo_received then
        (db, .error .badRequest)
      else if (udb.filter (fun e => workers.contains e.1 && e.2 == Role.worker)).length
          ≠ workers.length then
        (db, .error .badRequest)
      else if (udb.find? (fun e => e.1 == driverId && e.2 == Role.driver)).isNone then
        (db, .error .badRequest)
      else
        let updated := { project with
          assignedWorkers := workers
          assignedDriver := some driverId
          status := team_assigned
          updatedBy := some userId }
        (saveById db projectId updated, .ok updated)

/-- The fields of an `Attendance` document that the aggregation queries read
(`attendanceModel.ts`): optional project reference, user reference, date
(modelled as a UTC timestamp in milliseconds) and the `present` flag.
`markedBy` and `type` are not consulted by the aggregation queries. -/
structure AttendanceRecord where
  project : Option ProjectId
  user : UserId
  date : Nat
  present : Bool
  deriving DecidableEq, Repr

/-- Models `$dateToString { format: "%Y-%m-%d" }`: two UTC timestamps format
to the same calendar-date string exactly when they fall in the same UTC day,
i.e. agree after division by 86400000 ms. -/
def dateDayKey (t : Nat) : Nat :=
  t / 86400000

/-- The user documents the aggregation resolves through `populate(..., "salary")`:
id and optional daily salary. -/
abbrev SalaryDb := List (UserId × Option Nat)

/-- Salary lookup for a populated user reference. -/
def salaryOf (users : SalaryDb) (id : UserId) : Option Nat :=
  match users.find? (fun e => e.1 == id) with
  | some e => e.2
  | none => none

/-- The match condition of both attendance queries in
`calculateLaborDetails`: `{ project: projectId, present: true }`. -/
def projectPresentFilter (pid : ProjectId) (r : AttendanceRecord) : Bool :=
  r.project == some pid && r.present

/-- The worker attendance query (`expenseController.ts` lines 56-60):
`{ project: projectId, present: true, user: { $in: project.assignedWorkers } }`. -/
def workerAttendanceRecords (atts : List AttendanceRecord) (pid : ProjectId)
    (assignedWorkers : List UserId) : List AttendanceRecord :=
  atts.filter (fun r => projectPresentFilter pid r && assignedWorkers.contains r.user)

/-- One step of building `workerDaysMap`:
`workerDaysMap.set(u, (workerDaysMap.get(u) || 0) + 1)`. -/
def mapIncr : List (UserId × Nat) → UserId → List (UserId × Nat)
  | [], u => [(u, 1)]
  | (k, v) :: tl, u =>
      if k = u then (k, v + 1) :: tl else (k, v) :: mapIncr tl u

/-- `workerDaysMap` (expenseController.ts lines 62-66): fold the worker
attendance records into a per-user counter map. -/
def buildWorkerDaysMap (records : List AttendanceRecord) : List (UserId × Nat) :=
  records.foldl (fun m r => mapIncr m r.user) []

/-- `workerDaysMap.get(u) || 0`. -/
def mapGetD : List (UserId × Nat) → UserId → Nat
  | [], _ => 0
  | (k, v) :: tl, u => if k = u then v else mapGetD tl u

/-- The distinct-date count feeding `driverDaysPresent`
(expenseController.ts lines 69-88): group the `present: true` attendance of
the project by formatted calendar date and count the groups. -/
def driverDaysPresentOf (atts : List AttendanceRecord) (pid : ProjectId) : Nat :=
  (((atts.filter (projectPresentFilter pid)).map (fun r => dateDayKey r.date)).dedup).length

/-- One element of the per-worker labor breakdown (display-only name /
image fields omitted). -/
structure LaborEntry where
  user : UserId
  daysPresent : Nat
  dailySalary : Nat
  totalSalary : Nat
  deriving DecidableEq, Repr

/-- The labor breakdown returned by `calculateLaborDetails`. -/
structure LaborDetails where
  workers : List LaborEntry
  driver : LaborEntry
  totalLaborCost : Nat
  deriving DecidableEq, Repr

/-- The per-worker record built in the `project.assignedWorkers.map`
(expenseController.ts lines 90-99): `daysPresent` from the map (default 0),
`dailySalary` from the populated salary (`worker.salary || 0`), and their
product. -/
def workerEntry (users : SalaryDb) (dayMap : List (UserId × Nat)) (w : UserId) :
    LaborEntry :=
  { user := w
    daysPresent := mapGetD dayMap w
    dailySalary := (salaryOf users w).getD 0
    totalSalary := mapGetD dayMap w * (salaryOf users w).getD 0 }

/-- `calculateLaborDetails` (expenseController.ts lines 46-129): find the
project (404 when absent), count worker attendance per assigned worker,
count distinct attended calendar dates project-wide for the driver, build
the per-worker and driver records, and sum the totals. -/
def calculateLaborDetails (users : SalaryDb) (atts : List AttendanceRecord)
    (db : Db) (projectId : ProjectId) : Except ApiErr LaborDetails :=
  match findById db projectId with
  | none => .error .notFound
  | some project =>
    let dayMap := buildWorkerDaysMap
      (workerAttendanceRecords atts projectId project.assignedWorkers)
    let driverDaysPresent := driverDaysPresentOf atts projectId
    let workers := project.assignedWorkers.map (workerEntry users dayMap)
    let driver : LaborEntry :=
      match project.assignedDriver with
      | some d =>
        { user := d
          daysPresent := driverDaysPresent
          dailySalary := (salaryOf users d).getD 0
          totalSalary := driverDaysPresent * (salaryOf users d).getD 0 }
      | none =>
        { user := 0, daysPresent := 0, dailySalary := 0, totalSalary := 0 }
    .ok
      { workers := workers
        driver := driver
        totalLaborCost :=
          workers.foldl (fun sum w => sum + w.totalSalary) 0 + driver.totalSalary }

/-! ### Store lemmas -/

theorem findById_saveById (db : Db) (id : ProjectId) (p : ProjectState)
    (h : (findById db id).isSome) :
    findById (saveById db id p) id = some p := by
  induction db with
  | nil => simp [findById] at h
  | cons e tl ih =>
    obtain ⟨k, q⟩ := e
    by_cases hk : k = id
    · simp [findById, saveById, hk]
    · simp only [findById, saveById, if_neg hk] at h ⊢
      exact ih h

theorem findById_removeById (db : Db) (id : ProjectId) :
    findById (removeById db id) id = none := by
  induction db with
  | nil => rfl
  | cons e tl ih =>
    obtain ⟨k, q⟩ := e
    by_cases hk : k = id
    · simp [removeById, hk, ih]
    · simp [removeById, findById, hk, ih]

/-! ### Counter-map lemmas -/

theorem mapGetD_mapIncr (m : List (UserId × Nat)) (u w : UserId) :
    mapGetD (mapIncr m u) w = mapGetD m w + (if u = w then 1 else 0) := by
  induction m with
  | nil => by_cases h : u = w <;> simp [mapIncr, mapGetD, h]
  | cons e tl ih =>
    obtain ⟨k, v⟩ := e
    by_cases hk : k = u
    · subst hk
      by_cases hw : k = w
      · subst hw; simp [mapIncr, mapGetD]
      · simp [mapIncr, mapGetD, hw]
    · by_cases hw : k = w
      · have hu : ¬u = w := fun h => hk (hw.trans h.symm)
        have hwu : ¬w = u := fun h => hk (hw.trans h)
        simp [mapIncr, mapGetD, hk, hw, hu, hwu]
      · simp [mapIncr, mapGetD, hk, hw, ih]

theorem mapGetD_foldl_mapIncr (l : List AttendanceRecord)
    (m : List (UserId × Nat)) (w : UserId) :
    mapGetD (l.foldl (fun m r => mapIncr m r.user) m) w =
      mapGetD m w + l.countP (fun r => r.user == w) := by
  induction l generalizing m with
  | nil => simp
  | cons r tl ih =>
    simp only [List.foldl_cons, List.countP_cons, ih, mapGetD_mapIncr]
    by_cases h : r.user = w <;> simp [h] <;> omega

theorem mapGetD_buildWorkerDaysMap (l : List AttendanceRecord) (w : UserId) :
    mapGetD (buildWorkerDaysMap l) w = l.countP (fun r => r.user == w) := by
  simpa [mapGetD] using mapGetD_foldl_mapIncr l [] w

/-- For an assigned worker, the per-worker counter from the filtered query
is the exact count of that worker's present-marked attendance records on the
project. -/
theorem workerDays_countP (atts : List AttendanceRecord) (pid : ProjectId)
    (assigned : List UserId) (w : UserId) (hw : w ∈ assigned) :
    mapGetD (buildWorkerDaysMap (workerAttendanceRecords atts pid assigned)) w =
      atts.countP (fun r => projectPresentFilter pid r && r.user == w) := by
  rw [mapGetD_buildWorkerDaysMap, workerAttendanceRecords, List.countP_filter]
  refine List.countP_congr ?_
  intro r _
  by_cases hu : r.user = w
  · subst hu
    simp only [List.contains, List.elem_eq_true_of_mem hw, Bool.and_true,
      beq_self_eq_true, Bool.true_and, Bool.and_comm]
  · simp [hu]

/-! ### Sum lemma -/

theorem foldl_totalSalary (l : List LaborEntry) (n : Nat) :
    l.foldl (fun sum w => sum + w.totalSalary) n =
      n + (l.map LaborEntry.totalSalary).sum := by
  induction l generalizing n with
  | nil => simp
  | cons e tl ih => simp [ih, Nat.add_assoc]

/-! ### Claim theorems -/

/-- C1: for every project and every (current, target) status pair, the
explicit status-update operation (`updateProjectStatus`, and the status
branch of `updateProject`) succeeds and stores status = target exactly when
target is a member of the transition table entry for the current status; for
every pair whose target is not in the entry, it fails with an
invalid-transition error carrying the attempted from and to values and the
stored document is unchanged. -/
theorem statusTransition_correct (db : Db) (id : ProjectId) (project : ProjectState)
    (target : ProjectStatus) (u : UserId)
    (hfind : findById db id = some project) :
    (target ∈ validStatusTransitions project.status →
      updateProjectStatus db id (some target) u =
        (saveById db id { project with status := target, updatedBy := some u },
         .ok { project with status := target, updatedBy := some u }) ∧
      findById (updateProjectStatus db id (some target) u).1 id =
        some { project with status := target, updatedBy := some u } ∧
      updateProject db id (UpdateData.mk none (some target)) u =
        (saveById db id { project with status := target, updatedBy := some u },
         .ok { project with status := target, updatedBy := some u })) ∧
    (target ∉ validStatusTransitions project.status →
      updateProjectStatus db id (some target) u =
        (db, .error (.invalidTransition project.status target)) ∧
      updateProject db id (UpdateData.mk none (some target)) u =
        (db, .error (.invalidTransition project.status target))) := by
  constructor
  · intro hmem
    have hok : (findById db id).isSome := by rw [hfind]; rfl
    refine ⟨?_, ?_, ?_⟩
    · simp [updateProjectStatus, hfind, hmem]
    · simp [updateProjectStatus, hfind, hmem, findById_saveById db id _ hok]
    · simp [updateProject, hfind, hmem, progressOutOfRange, applyUpdateData]
  · intro hmem
    constructor
    · simp [updateProjectStatus, hfind, hmem]
    · simp [updateProject, hfind, hmem, progressOutOfRange]

def demoLpoProject : ProjectState :=
  { status := lpo_received, progress := 0, assignedWorkers := [],
    assignedDriver := none, updatedBy := none }

def demoDb1 : Db := [(1, demoLpoProject)]

/-- Witness for C1: on a concrete one-project store in `lpo_received`, the
allowed move to `work_started` succeeds and the disallowed move to
`quality_check` fails with the attempted pair and leaves the store as it
was. -/
theorem statusTransition_correct_witness :
    updateProjectStatus demoDb1 1 (some work_started) 7 =
      (saveById demoDb1 1 { demoLpoProject with status := work_started, updatedBy := some 7 },
       .ok { demoLpoProject with status := work_started, updatedBy := some 7 }) ∧
    updateProjectStatus demoDb1 1 (some quality_check) 7 =
      (demoDb1, .error (.invalidTransition lpo_received quality_check)) := by
  have h1 := statusTransition_correct demoDb1 1 demoLpoProject work_started 7 (by decide)
  have h2 := statusTransition_correct demoDb1 1 demoLpoProject quality_check 7 (by decide)
  exact ⟨(h1.1 (by decide)).1, (h2.2 (by decide)).1⟩

def demoLpoProject2 : ProjectState :=
  { status := lpo_received, progress := 0, assignedWorkers := [],
    assignedDriver := none, updatedBy := none }

def demoDb2 : Db := [(11, demoLpoProject2)]

/-- C2 counterexample: from `lpo_received` the claimed target set includes
`team_assigned`, but on the source transition table a request moving a
concrete `lpo_received` project to `team_assigned` is rejected with an
invalid-transition error, and `team_assigned` is not in the table entry. -/
theorem lpoReceived_teamAssigned_rejected :
    updateProjectStatus demoDb2 11 (some team_assigned) 4 =
      (demoDb2, .error (.invalidTransition lpo_received team_assigned)) ∧
    team_assigned ∉ validStatusTransitions lpo_received := by
  exact ⟨rfl, by decide⟩

/-- Projection of a handler outcome to its success flag. -/
def exceptIsOk : Except ApiErr ProjectState → Bool
  | .ok _ => true
  | .error _ => false

/-- C2 amended: for a project whose current status is `lpo_received`, the
set of targets accepted by the status-transition check is exactly
`{work_started, on_hold, cancelled}`: a transition request to any of these
three targets succeeds, and to any other target fails. -/
theorem lpoReceived_accepted_targets (db : Db) (id : ProjectId)
    (project : ProjectState) (t : ProjectStatus) (u : UserId)
    (hfind : findById db id = some project)
    (hs : project.status = lpo_received) :
    exceptIsOk (updateProjectStatus db id (some t) u).2 = true ↔
      (t = work_started ∨ t = on_hold ∨ t = cancelled) := by
  have hiff : t ∈ validStatusTransitions lpo_received ↔
      (t = work_started ∨ t = on_hold ∨ t = cancelled) := by
    simp [validStatusTransitions]
  rw [← hiff]
  simp only [updateProjectStatus, hfind, hs]
  by_cases hmem : t ∈ validStatusTransitions lpo_received
  · simp [hmem, exceptIsOk]
  · simp [hmem, exceptIsOk]

/-- Witness for C2 (amended): on a concrete `lpo_received` project,
`on_hold` is accepted and `quotation_sent` is rejected. -/
theorem lpoReceived_accepted_targets_witness :
    exceptIsOk (updateProjectStatus demoDb2 11 (some on_hold) 4).2 = true ∧
    exceptIsOk (updateProjectStatus demoDb2 11 (some quotation_sent) 4).2 ≠ true := by
  constructor
  · exact (lpoReceived_accepted_targets demoDb2 11 demoLpoProject2 on_hold 4
      (by decide) rfl).mpr (by decide)
  · intro hcontra
    have := (lpoReceived_accepted_targets demoDb2 11 demoLpoProject2 quotation_sent 4
      (by decide) rfl).mp hcontra
    simp at this

/-- C7: for every stored project whose status is not `draft`, the delete
operation fails with the precondition error and the project remains stored;
for every stored project whose status is `draft`, the delete operation
succeeds and removes the project. -/
theorem deleteProject_draft_only (db : Db) (id : ProjectId) (project : ProjectState)
    (hfind : findById db id = some project) :
    (project.status ≠ draft →
      deleteProject db id = (db, .error .preconditionFailed) ∧
      findById (deleteProject db id).1 id = some project) ∧
    (project.status = draft →
      deleteProject db id = (removeById db id, .ok ()) ∧
      findById (deleteProject db id).1 id = none) := by
  constructor
  · intro hs
    constructor
    · simp [deleteProject, hfind, hs]
    · simp [deleteProject, hfind, hs]
  · intro hs
    constructor
    · simp [deleteProject, hfind, hs]
    · simp [deleteProject, hfind, hs, findById_removeById]

def demoDraftProject : ProjectState :=
  { status := draft, progress := 0, assignedWorkers := [],
    assignedDriver := none, updatedBy := none }

def demoStartedProject : ProjectState :=
  { status := in_progress, progress := 40, assignedWorkers := [],
    assignedDriver := none, updatedBy := none }

def demoDb7 : Db := [(2, demoDraftProject), (3, demoStartedProject)]

/-- Witness for C7: in a concrete two-project store, deleting the `draft`
project removes it and deleting the `in_progress` project fails and leaves
it stored. -/
theorem deleteProject_draft_only_witness :
    (deleteProject demoDb7 2 = (removeById demoDb7 2, .ok ()) ∧
      findById (deleteProject demoDb7 2).1 2 = none) ∧
    (deleteProject demoDb7 3 = (demoDb7, .error .preconditionFailed) ∧
      findById (deleteProject demoDb7 3).1 3 = some demoStartedProject) := by
  have h2 := deleteProject_draft_only demoDb7 2 demoDraftProject (by decide)
  have h3 := deleteProject_draft_only demoDb7 3 demoStartedProject (by decide)
  exact ⟨h2.2 rfl, h3.1 (by decide)⟩

/-- C10: for every stored project, `assignTeamAndDriver` fails with a 400
error and leaves the store unchanged unless the current status is exactly
`lpo_received`; when the status is `lpo_received` and the worker and driver
role checks pass, it stores the validated workers and driver and sets status
`team_assigned` directly, although `team_assigned` is not in the transition
table entry for `lpo_received` (the table is not consulted). -/
theorem assignTeamAndDriver_correct (udb : UserDb) (db : Db) (pid : ProjectId)
    (project : ProjectState) (workers : List UserId) (driverId u : UserId)
    (hfind : findById db pid = some project)
    (hw : workers ≠ []) :
    (project.status ≠ lpo_received →
      assignTeamAndDriver udb db pid workers (some driverId) u =
        (db, .error .badRequest) ∧ ApiErr.httpStatus .badRequest = 400) ∧
    (project.status = lpo_received →
      (udb.filter (fun e => workers.contains e.1 && e.2 == Role.worker)).length
          = workers.length →
      (udb.find? (fun e => e.1 == driverId && e.2 == Role.driver)).isSome = true →
      assignTeamAndDriver udb db pid workers (some driverId) u =
        (saveById db pid { project with
            assignedWorkers := workers
            assignedDriver := some driverId
            status := team_assigned
            updatedBy := some u },
         .ok { project with
            assignedWorkers := workers
            assignedDriver := some driverId
            status := team_assigned
            updatedBy := some u })) ∧
    team_assigned ∉ validStatusTransitions lpo_received := by
  have hne : workers.isEmpty = false := by
    cases workers with
    | nil => exact absurd rfl hw
    | cons a tl => rfl
  refine ⟨?_, ?_, by decide⟩
  · intro hs
    refine ⟨?_, rfl⟩
    simp [assignTeamAndDriver, hne, hfind, hs]
  · intro hs hlen hdr
    obtain ⟨v, hv⟩ := Option.isSome_iff_exists.mp hdr
    simp only [List.contains, List.elem_eq_mem] at hlen
    simp [assignTeamAndDriver, hne, hfind, hs, hlen, hv]

def demoUserDb : UserDb :=
  [(31, Role.worker), (32, Role.worker), (33, Role.driver), (34, Role.engineer)]

def demoLpoProject10 : ProjectState :=
  { status := lpo_received, progress := 0, assignedWorkers := [],
    assignedDriver := none, updatedBy := none }

def demoQsProject10 : ProjectState :=
  { status := quotation_sent, progress := 0, assignedWorkers := [],
    assignedDriver := none, updatedBy := none }

def demoDb10 : Db := [(5, demoLpoProject10), (6, demoQsProject10)]

/-- Witness for C10: on a concrete store, assigning two valid workers and a
valid driver to the `lpo_received` project succeeds and sets status
`team_assigned`; the same request against the `quotation_sent` project fails
with a 400 error and leaves the store unchanged. -/
theorem assignTeamAndDriver_correct_witness :
    assignTeamAndDriver demoUserDb demoDb10 5 [31, 32] (some 33) 8 =
      (saveById demoDb10 5 { demoLpoProject10 with
          assignedWorkers := [31, 32]
          assignedDriver := some 33
          status := team_assigned
          updatedBy := some 8 },
       .ok { demoLpoProject10 with
          assignedWorkers := [31, 32]
          assignedDriver := some 33
          status := team_assigned
          updatedBy := some 8 }) ∧
    assignTeamAndDriver demoUserDb demoDb10 6 [31, 32] (some 33) 8 =
      (demoDb10, .error .badRequest) := by
  have h5 := assignTeamAndDriver_correct demoUserDb demoDb10 5 demoLpoProject10
    [31, 32] 33 8 (by decide) (by decide)
  have h6 := assignTeamAndDriver_correct demoUserDb demoDb10 6 demoQsProject10
    [31, 32] 33 8 (by decide) (by decide)
  exact ⟨(h5.2.1 rfl (by decide) (by decide)), (h6.1 (by decide)).1⟩

/-- C5: for every stored project, a progress update setting progress to
exactly 100 results in stored status `work_completed`, with no
transition-table check; when the status is already `work_completed` it stays
`work_completed` (the final stored status is `work_completed` for every
starting status, so the operation is idempotent on the status). -/
theorem progress100_forces_work_completed (db : Db) (id : ProjectId)
    (project : ProjectState) (u : UserId)
    (hfind : findById db id = some project) :
    updateProjectProgress db id (some 100) u =
      (saveById db id { project with
          status := work_completed
          progress := 100
          updatedBy := some u },
       .ok { project with
          status := work_completed
          progress := 100
          updatedBy := some u }) := by
  have hrange : ¬((100 : Int) < 0 ∨ (100 : Int) > 100) := by norm_num
  obtain ⟨st, pr, aw, ad, ub⟩ := project
  cases st <;> by_cases hpr0 : pr ≥ 0 <;> by_cases hpr : pr > 0 <;>
    simp [updateProjectProgress, hfind, hrange, hpr0, hpr]

def demoDraftProject5 : ProjectState :=
  { status := draft, progress := 30, assignedWorkers := [],
    assignedDriver := none, updatedBy := none }

def demoDb5 : Db := [(41, demoDraftProject5)]

/-- Witness for C5: setting progress 100 on a concrete `draft` project
stores status `work_completed`, even though `work_completed` is not in the
transition table entry for `draft`. -/
theorem progress100_forces_work_completed_witness :
    updateProjectProgress demoDb5 41 (some 100) 9 =
      (saveById demoDb5 41 { demoDraftProject5 with
          status := work_completed
          progress := 100
          updatedBy := some 9 },
       .ok { demoDraftProject5 with
          status := work_completed
          progress := 100
          updatedBy := some 9 }) ∧
    work_completed ∉ validStatusTransitions draft := by
  exact ⟨progress100_forces_work_completed demoDb5 41 demoDraftProject5 9 (by decide),
    by decide⟩

def demoWsProject6 : ProjectState :=
  { status := work_started, progress := 0, assignedWorkers := [],
    assignedDriver := none, updatedBy := none }

def demoDb6 : Db := [(21, demoWsProject6)]

/-- C6 counterexample: a project in status `work_started` with stored
progress 0 receives a progress update to 50; the claim says the newly
submitted value (50 > 0) triggers the auto-advance to `in_progress`, but the
code tests the previously stored progress (0), so the stored status stays
`work_started`. -/
theorem progress_auto_advance_cex :
    statusOfResult (updateProjectProgress demoDb6 21 (some 50) 3) =
      some work_started ∧
    (some work_started : Option ProjectStatus) ≠ some in_progress := by
  exact ⟨rfl, by decide⟩

/-- C6 amended: during a progress update with a valid submitted value other
than 100, a project in status `team_assigned` or `work_started` ends in
status `in_progress` when the PREVIOUSLY STORED progress is > 0 (not the
newly submitted value), and otherwise in `work_started`; the auto-transition
ignores the transition table (`team_assigned` can even jump straight to
`in_progress`, which its table entry does not allow). -/
theorem progress_auto_advance (db : Db) (id : ProjectId) (project : ProjectState)
    (newP : Int) (u : UserId)
    (hfind : findById db id = some project)
    (hp0 : 0 ≤ project.progress)
    (hlo : 0 ≤ newP) (hhi : newP ≤ 100) (h100 : newP ≠ 100)
    (hst : project.status = team_assigned ∨ project.status = work_started) :
    statusOfResult (updateProjectProgress db id (some newP) u) =
      some (if 0 < project.progress then in_progress else work_started) ∧
    in_progress ∉ validStatusTransitions team_assigned := by
  refine ⟨?_, by decide⟩
  have hr1 : ¬ newP < 0 := not_lt.mpr hlo
  have hr2 : ¬ newP > 100 := not_lt.mpr hhi
  obtain ⟨st, pr, aw, ad, ub⟩ := project
  simp only at hp0 hst ⊢
  rcases hst with hs | hs <;> subst hs <;> by_cases hpr : 0 < pr <;>
    simp [updateProjectProgress, hfind, hr1, hr2, statusOfResult, hpr, hp0, h100]

def demoTaProject6 : ProjectState :=
  { status := team_assigned, progress := 0, assignedWorkers := [],
    assignedDriver := none, updatedBy := none }

def demoDb6b : Db := [(22, demoTaProject6)]

/-- Witness for C6 (amended): a concrete `team_assigned` project with stored
progress 0 updated to 30 ends in `work_started`. -/
theorem progress_auto_advance_witness :
    statusOfResult (updateProjectProgress demoDb6b 22 (some 30) 3) =
      some (if (0 : Int) < 0 then in_progress else work_started) ∧
    in_progress ∉ validStatusTransitions team_assigned := by
  exact progress_auto_advance demoDb6b 22 demoTaProject6 30 3 (by decide)
    (by decide) (by decide) (by decide) (by decide) (Or.inl rfl)

/-- C3: in the labor aggregation, for every assigned worker the produced
entry has `daysPresent` equal to the exact count of that worker's
`present = true` attendance records on the project (duplicate calendar dates
for the same worker are counted multiply, because records are counted, not
distinct dates), `dailySalary` equal to the populated salary or 0 when
unset, and `totalSalary = daysPresent * dailySalary`. -/
theorem calculateLaborDetails_worker_days (users : SalaryDb)
    (atts : List AttendanceRecord) (db : Db) (pid : ProjectId)
    (project : ProjectState) (ld : LaborDetails)
    (hfind : findById db pid = some project)
    (hok : calculateLaborDetails users atts db pid = .ok ld) :
    ld.workers.length = project.assignedWorkers.length ∧
    ∀ i (hi : i < project.assignedWorkers.length),
      ld.workers[i]? = some
        { user := project.assignedWorkers.get ⟨i, hi⟩
          daysPresent := atts.countP (fun r => projectPresentFilter pid r &&
            r.user == project.assignedWorkers.get ⟨i, hi⟩)
          dailySalary := (salaryOf users (project.assignedWorkers.get ⟨i, hi⟩)).getD 0
          totalSalary := atts.countP (fun r => projectPresentFilter pid r &&
              r.user == project.assignedWorkers.get ⟨i, hi⟩) *
            (salaryOf users (project.assignedWorkers.get ⟨i, hi⟩)).getD 0 } := by
  simp only [calculateLaborDetails, hfind, Except.ok.injEq] at hok
  subst hok
  refine ⟨by simp, ?_⟩
  intro i hi
  have hw : project.assignedWorkers.get ⟨i, hi⟩ ∈ project.assignedWorkers :=
    List.get_mem project.assignedWorkers i hi
  have hdays := workerDays_countP atts pid project.assignedWorkers
    (project.assignedWorkers.get ⟨i, hi⟩) hw
  simp only [List.get_eq_getElem] at hdays
  simp [List.getElem?_map, List.getElem?_eq_getElem hi, workerEntry, hdays,
    List.get_eq_getElem]

def attsC3 : List AttendanceRecord :=
  [{ project := some 5, user := 2, date := 0, present := true },
   { project := some 5, user := 2, date := 1000, present := true },
   { project := some 5, user := 3, date := 0, present := true }]

def usersC3 : SalaryDb := [(2, some 50), (3, none)]

def projC3 : ProjectState :=
  { status := in_progress, progress := 50, assignedWorkers := [2, 3],
    assignedDriver := none, updatedBy := none }

def dbC3 : Db := [(5, projC3)]

def ldC3 : LaborDetails :=
  { workers := [{ user := 2, daysPresent := 2, dailySalary := 50, totalSalary := 100 },
                { user := 3, daysPresent := 1, dailySalary := 0, totalSalary := 0 }]
    driver := { user := 0, daysPresent := 0, dailySalary := 0, totalSalary := 0 }
    totalLaborCost := 100 }

/-- Witness for C3: two same-day records (distinct timestamps, one calendar
date) of worker 2 on project 5 count as 2 days, so worker 2 earns
2 x 50 = 100; worker 3 has an unset salary, so earns 1 x 0 = 0. -/
theorem calculateLaborDetails_worker_days_witness :
    calculateLaborDetails usersC3 attsC3 dbC3 5 = .ok ldC3 ∧
    ldC3.workers[0]? =
      some { user := 2, daysPresent := 2, dailySalary := 50, totalSalary := 100 } := by
  have h := calculateLaborDetails_worker_days usersC3 attsC3 dbC3 5 projC3 ldC3
    rfl rfl
  have h0 := h.2 0 (by decide)
  exact ⟨rfl, by rw [h0]; decide⟩

/-- C4: in the labor aggregation, the driver entry's `daysPresent` is the
number of distinct calendar dates across all `present = true` attendance
records of the project, regardless of which user produced each record and of
the driver's own attendance; `totalSalary` is that count times the driver's
daily salary, and it is 0 when no driver is assigned. -/
theorem calculateLaborDetails_driver_days (users : SalaryDb)
    (atts : List AttendanceRecord) (db : Db) (pid : ProjectId)
    (project : ProjectState) (ld : LaborDetails)
    (hfind : findById db pid = some project)
    (hok : calculateLaborDetails users atts db pid = .ok ld) :
    (∀ d, project.assignedDriver = some d →
      ld.driver.user = d ∧
      ld.driver.daysPresent =
        (((atts.filter (projectPresentFilter pid)).map
          (fun r => dateDayKey r.date)).toFinset).card ∧
      ld.driver.dailySalary = (salaryOf users d).getD 0 ∧
      ld.driver.totalSalary = ld.driver.daysPresent * ld.driver.dailySalary) ∧
    (project.assignedDriver = none → ld.driver.totalSalary = 0) := by
  simp only [calculateLaborDetails, hfind, Except.ok.injEq] at hok
  subst hok
  constructor
  · intro d hd
    simp [hd, driverDaysPresentOf, List.card_toFinset]
  · intro hd
    simp [hd]

def attsC4 : List AttendanceRecord :=
  [{ project := some 7, user := 2, date := 0, present := true },
   { project := some 7, user := 3, date := 86400000, present := true }]

def usersC4 : SalaryDb := [(9, some 100), (2, some 10), (3, none)]

def projC4 : ProjectState :=
  { status := in_progress, progress := 10, assignedWorkers := [2, 3],
    assignedDriver := some 9, updatedBy := none }

def dbC4 : Db := [(7, projC4)]

def ldC4 : LaborDetails :=
  { workers := [{ user := 2, daysPresent := 1, dailySalary := 10, totalSalary := 10 },
                { user := 3, daysPresent := 1, dailySalary := 0, totalSalary := 0 }]
    driver := { user := 9, daysPresent := 2, dailySalary := 100, totalSalary := 200 }
    totalLaborCost := 210 }

/-- Witness for C4: attendance of workers 2 and 3 on two distinct calendar
dates (the driver, user 9, has no attendance record at all) with driver
daily salary 100 yields driver daysPresent 2 and totalSalary 200. -/
theorem calculateLaborDetails_driver_days_witness :
    calculateLaborDetails usersC4 attsC4 dbC4 7 = .ok ldC4 ∧
    ldC4.driver.daysPresent = 2 ∧ ldC4.driver.totalSalary = 200 := by
  have h := (calculateLaborDetails_driver_days usersC4 attsC4 dbC4 7 projC4 ldC4
    rfl rfl).1 9 rfl
  exact ⟨rfl, h.2.1.trans (by decide), h.2.2.2.trans (by decide)⟩

/-- C8: every labor breakdown produced by the aggregator satisfies
`totalSalary = daysPresent * dailySalary` for every worker entry and for the
driver entry, and `totalLaborCost` is the sum of the workers' totals plus
the driver's total. -/
theorem laborDetails_invariant (users : SalaryDb) (atts : List AttendanceRecord)
    (db : Db) (pid : ProjectId) (ld : LaborDetails)
    (hok : calculateLaborDetails users atts db pid = .ok ld) :
    (∀ w ∈ ld.workers, w.totalSalary = w.daysPresent * w.dailySalary) ∧
    ld.driver.totalSalary = ld.driver.daysPresent * ld.driver.dailySalary ∧
    ld.totalLaborCost =
      (ld.workers.map LaborEntry.totalSalary).sum + ld.driver.totalSalary := by
  cases hfind : findById db pid with
  | none => simp [calculateLaborDetails, hfind] at hok
  | some project =>
    simp only [calculateLaborDetails, hfind, Except.ok.injEq] at hok
    subst hok
    refine ⟨?_, ?_, ?_⟩
    · intro w hwmem
      simp only [List.mem_map] at hwmem
      obtain ⟨a, _, rfl⟩ := hwmem
      rfl
    · cases hd : project.assignedDriver <;> simp [hd, workerEntry]
    · simp [foldl_totalSalary]

/-- Witness for C8: the invariant instantiated on the concrete breakdown of
the C4 store. -/
theorem laborDetails_invariant_witness :
    calculateLaborDetails usersC4 attsC4 dbC4 7 = .ok ldC4 ∧
    ldC4.totalLaborCost =
      (ldC4.workers.map LaborEntry.totalSalary).sum + ldC4.driver.totalSalary := by
  have h := laborDetails_invariant usersC4 attsC4 dbC4 7 ldC4 rfl
  exact ⟨rfl, h.2.2⟩

/-- C9: labor aggregation is deterministic: for a fixed salary table, store
and project, a repeated call returns the identical breakdown, and the result
does not depend on the order in which the database enumerates the attendance
records (the only free choice in the inputs): any permutation of the
attendance list yields the same `daysPresent`, `totalSalary` and
`totalLaborCost` values. -/
theorem calculateLaborDetails_deterministic (users : SalaryDb)
    (atts atts2 : List AttendanceRecord) (db : Db) (pid : ProjectId)
    (hperm : atts.Perm atts2) :
    calculateLaborDetails users atts db pid = calculateLaborDetails users atts db pid ∧
    calculateLaborDetails users atts db pid = calculateLaborDetails users atts2 db pid := by
  refine ⟨rfl, ?_⟩
  cases hfind : findById db pid with
  | none => simp [calculateLaborDetails, hfind]
  | some project =>
    have hcnt : ∀ w, mapGetD (buildWorkerDaysMap
          (workerAttendanceRecords atts pid project.assignedWorkers)) w
        = mapGetD (buildWorkerDaysMap
          (workerAttendanceRecords atts2 pid project.assignedWorkers)) w := by
      intro w
      rw [mapGetD_buildWorkerDaysMap, mapGetD_buildWorkerDaysMap,
        workerAttendanceRecords, workerAttendanceRecords]
      exact (hperm.filter _).countP_eq _
    have hentry : ∀ w, workerEntry users (buildWorkerDaysMap
          (workerAttendanceRecords atts pid project.assignedWorkers)) w
        = workerEntry users (buildWorkerDaysMap
          (workerAttendanceRecords atts2 pid project.assignedWorkers)) w := by
      intro w
      simp only [workerEntry, hcnt w]
    have hmap : project.assignedWorkers.map (workerEntry users (buildWorkerDaysMap
          (workerAttendanceRecords atts pid project.assignedWorkers)))
        = project.assignedWorkers.map (workerEntry users (buildWorkerDaysMap
          (workerAttendanceRecords atts2 pid project.assignedWorkers))) :=
      List.map_congr_left (fun a _ => hentry a)
    have hdd : driverDaysPresentOf atts pid = driverDaysPresentOf atts2 pid := by
      unfold driverDaysPresentOf
      exact ((hperm.filter _).map _).dedup.length_eq
    simp only [calculateLaborDetails, hfind, hmap, hdd]

def attsC9 : List AttendanceRecord :=
  [{ project := some 5, user := 2, date := 0, present := true },
   { project := some 5, user := 3, date := 86400000, present := true },
   { project := some 5, user := 2, date := 86400000, present := false }]

/-- Witness for C9: on the C3 store, the aggregation of a concrete
attendance list equals the aggregation of the same records enumerated in
reverse order. -/
theorem calculateLaborDetails_deterministic_witness :
    calculateLaborDetails usersC3 attsC9 dbC3 5 =
      calculateLaborDetails usersC3 attsC9 dbC3 5 ∧
    calculateLaborDetails usersC3 attsC9 dbC3 5 =
      calculateLaborDetails usersC3 attsC9.reverse dbC3 5 := by
  exact calculateLaborDetails_deterministic usersC3 attsC9 attsC9.reverse dbC3 5
    (List.reverse_perm attsC9).symm
